import Mathlib

/-!
Verification of the chainlink_multicall_signoz repository.

The repository is a thin script (src/main.rs, src/telemetry.rs) that declares a
CustomOracle contract interface, batches eight read-only calls through an on-chain
multicall helper, and initializes an OpenTelemetry tracer.  The multicall
aggregator and ABI codec the spec describes live in the alloy library, not in the
repository's own sources; those components are modelled here from the spec's own
words (each such definition is marked).  The oracle interface, the call order of
main, the tracer-initialization behaviour and the telemetry endpoint
normalization are translated directly from the source files.
-/

namespace ChainlinkMulticall

/-! ## Byte-level utilities -/

/-- Big-endian byte expansion of a natural number into exactly `n` bytes. -/
def natToBytesBE : Nat → Nat → List Nat
  | 0, _ => []
  | n + 1, v => natToBytesBE n (v / 256) ++ [v % 256]

/-- Big-endian interpretation of a byte list as a natural number. -/
def bytesToNatBE (l : List Nat) : Nat :=
  l.foldl (fun acc b => acc * 256 + b) 0

/-- Little-endian interpretation of a byte list as one 64-bit Keccak lane. -/
def laneOfBytesLE (l : List Nat) : Nat :=
  l.foldr (fun b acc => acc * 256 + b) 0

/-! ## Keccak-256

The spec requires the selector to be "the first 4 bytes of the standard hash of
the canonical signature string"; for the reference ABI scheme that hash is
Keccak-256 (the original Keccak padding, rate 1088).  The permutation below is a
direct transcription of Keccak-f[1600] on 25 lanes of 64 bits, lane `(x, y)`
stored at list index `x + 5 * y`. -/

/-- 64-bit left rotation. -/
def rotl64 (v n : Nat) : Nat :=
  ((v <<< n) ||| (v >>> (64 - n))) % 2 ^ 64

/-- 64-bit bitwise complement. -/
def not64 (v : Nat) : Nat := v ^^^ (2 ^ 64 - 1)

/-- The 24 Keccak round constants, written in decimal. -/
def keccakRC : List Nat :=
  [1, 32898, 9223372036854808714,
   9223372039002292224, 32907, 2147483649,
   9223372039002292353, 9223372036854808585, 138,
   136, 2147516425, 2147483658,
   2147516555, 9223372036854775947, 9223372036854808713,
   9223372036854808579, 9223372036854808578, 9223372036854775936,
   32778, 9223372039002259466, 9223372039002292353,
   9223372036854808704, 2147483649, 9223372039002292232]

/-- Rotation offsets of the rho step, one inner list per column `x`, the inner
list indexed by the row `y`. -/
def keccakRhoCols : List (List Nat) :=
  [[0, 36, 3, 41, 18],
   [1, 44, 10, 45, 2],
   [62, 6, 43, 15, 61],
   [28, 55, 25, 21, 56],
   [27, 20, 39, 8, 14]]

/-- Rotation offset of the lane at flat index `x + 5 * y`. -/
def rhoOffset (i : Nat) : Nat :=
  (keccakRhoCols.getD (i % 5) []).getD (i / 5) 0

/-- Column parity of the theta step. -/
def thetaC (a : List Nat) (x : Nat) : Nat :=
  a.getD x 0 ^^^ a.getD (x + 5) 0 ^^^ a.getD (x + 10) 0 ^^^
    a.getD (x + 15) 0 ^^^ a.getD (x + 20) 0

/-- Mixing value of the theta step. -/
def thetaD (a : List Nat) (x : Nat) : Nat :=
  thetaC a ((x + 4) % 5) ^^^ rotl64 (thetaC a ((x + 1) % 5)) 1

/-- Theta step of Keccak-f. -/
def theta (a : List Nat) : List Nat :=
  (List.range 25).map (fun i => a.getD i 0 ^^^ thetaD a (i % 5))

/-- Combined rho and pi steps: output lane `(X, Y)` is the source lane
`((X + 3Y) mod 5, X)` rotated by its rho offset. -/
def rhoPi (a : List Nat) : List Nat :=
  (List.range 25).map (fun j =>
    let s := (j % 5 + 3 * (j / 5)) % 5 + 5 * (j % 5)
    rotl64 (a.getD s 0) (rhoOffset s))

/-- Chi step of Keccak-f. -/
def chi (b : List Nat) : List Nat :=
  (List.range 25).map (fun j =>
    let x := j % 5
    let y := j / 5
    b.getD j 0 ^^^ (not64 (b.getD ((x + 1) % 5 + 5 * y) 0) &&&
      b.getD ((x + 2) % 5 + 5 * y) 0))

/-- One full round of Keccak-f: theta, rho, pi, chi, iota. -/
def keccakRound (a : List Nat) (rc : Nat) : List Nat :=
  let c := chi (rhoPi (theta a))
  c.set 0 (c.getD 0 0 ^^^ rc)

/-- The Keccak-f[1600] permutation: 24 rounds. -/
def keccakF (a : List Nat) : List Nat :=
  keccakRC.foldl keccakRound a

/-- Xor one 136-byte rate block into the first 17 lanes of the state. -/
def xorBlock (a : List Nat) (block : List Nat) : List Nat :=
  (List.range 25).map (fun i =>
    if i < 17 then a.getD i 0 ^^^ laneOfBytesLE ((block.drop (8 * i)).take 8)
    else a.getD i 0)

/-- Absorb a padded message, one 136-byte block at a time. -/
def keccakAbsorb (a : List Nat) (l : List Nat) : List Nat :=
  if l.length < 136 then a
  else keccakAbsorb (keccakF (xorBlock a (l.take 136))) (l.drop 136)
  termination_by l.length
  decreasing_by simp [List.length_drop]; omega

/-- Keccak pad10*1 with domain byte 0x01 (the original Keccak padding used by
the reference ABI's hash, not the SHA-3 variant). -/
def keccakPad (msg : List Nat) : List Nat :=
  let r := 136 - msg.length % 136
  if r = 1 then msg ++ [0x81]
  else msg ++ [0x01] ++ List.replicate (r - 2) 0 ++ [0x80]

/-- Keccak-256 of a byte list: absorb the padded input, squeeze 32 bytes. -/
def keccak256 (msg : List Nat) : List Nat :=
  let st := keccakAbsorb (List.replicate 25 0) (keccakPad msg)
  (List.range 32).map (fun i => (st.getD (i / 8) 0 >>> (8 * (i % 8))) % 256)

/-! ## ABI data model and codec

Modelled from the spec: the ABI Codec and its data model (spec sections 3 and
4.1) are implemented by the alloy library, which is not part of this
repository's sources; only the interface declaration and the call sites appear
in src/main.rs.  The definitions below follow the spec's words. -/

/-- Modelled from the spec: the closed tagged variant of primitive word types
the oracle needs, `Address` (20-byte value) and `UnsignedInt256`. -/
inductive AbiType
  | address
  | uint256
deriving DecidableEq, Repr

/-- Modelled from the spec: tagged values mirroring `AbiType`'s cases. -/
inductive AbiValue
  | vAddress (bytes : List Nat)
  | vUint256 (val : Nat)
deriving DecidableEq, Repr

/-- The `AbiType` tag of an `AbiValue`. -/
def argTypeOf : AbiValue → AbiType
  | .vAddress _ => .address
  | .vUint256 _ => .uint256

/-- An `AbiValue` is in range: an address is 20 bytes, an unsigned integer fits
in 256 bits. -/
def validAbiValue : AbiValue → Bool
  | .vAddress bs => bs.length == 20 && bs.all (fun b => b < 256)
  | .vUint256 v => v < 2 ^ 256

/-- Modelled from the spec: an immutable function signature value — name,
ordered parameter types, ordered return types. -/
structure FunctionSignature where
  name : String
  parameterTypes : List AbiType
  returnTypes : List AbiType
deriving DecidableEq, Repr

/-- Canonical ABI name of a type. -/
def abiTypeName : AbiType → String
  | .address => "address"
  | .uint256 => "uint256"

/-- Modelled from the spec: the canonical signature string
`name(type1,type2,...)`, no whitespace, types in canonical form. -/
def canonicalSignature (sig : FunctionSignature) : String :=
  sig.name ++ "(" ++ String.intercalate (",") (sig.parameterTypes.map abiTypeName) ++ ")"

/-- ASCII bytes of a string (every character used here is ASCII). -/
def strBytes (s : String) : List Nat := s.toList.map Char.toNat

/-- Modelled from the spec: the 4-byte selector — first 4 bytes of the standard
hash (Keccak-256) of the canonical signature string. -/
def selector (sig : FunctionSignature) : List Nat :=
  (keccak256 (strBytes (canonicalSignature sig))).take 4

/-- Modelled from the spec: codec-level errors. -/
inductive CodecError
  | encodingError
  | decodingError
deriving DecidableEq, Repr

/-- Modelled from the spec: each scalar value as a fixed 32-byte big-endian
word — `Address` right-aligned (12 leading zero bytes), `UnsignedInt`
right-aligned big-endian. -/
def encodeValue : AbiValue → List Nat
  | .vAddress bs => List.replicate 12 0 ++ bs
  | .vUint256 v => natToBytesBE 32 v

/-- The calldata of one call: selector followed by the static-head encoding of
each argument in order. -/
def encodeCalldata (sig : FunctionSignature) (args : List AbiValue) : List Nat :=
  selector sig ++ (args.map encodeValue).flatten

/-- Modelled from the spec: `encode` fails with `EncodingError` if the
arguments do not positionally match the parameter types, and otherwise yields
selector plus argument words. -/
def encode (sig : FunctionSignature) (args : List AbiValue) :
    Except CodecError (List Nat) :=
  if args.map argTypeOf = sig.parameterTypes then .ok (encodeCalldata sig args)
  else .error .encodingError

/-- Modelled from the spec: decode one 32-byte word at a declared type.  An
`Address` word must have its leading 12 bytes zero — a non-zero high region is
a `DecodingError`, not silently truncated; any 32-byte pattern is a valid
`uint256`. -/
def decodeWord (t : AbiType) (w : List Nat) : Except CodecError AbiValue :=
  if w.length ≠ 32 then .error .decodingError
  else
    match t with
    | .address =>
      if (w.take 12).all (fun b => b == 0) then .ok (.vAddress (w.drop 12))
      else .error .decodingError
    | .uint256 => .ok (.vUint256 (bytesToNatBE w))

/-- Modelled from the spec: `decode` consumes one 32-byte word per declared
return type and fails with `DecodingError` when the payload length is not
exactly 32 bytes per type. -/
def decode : List AbiType → List Nat → Except CodecError (List AbiValue)
  | [], raw => if raw.isEmpty then .ok [] else .error .decodingError
  | t :: ts, raw =>
    if raw.length < 32 then .error .decodingError
    else
      match decodeWord t (raw.take 32) with
      | .error e => .error e
      | .ok v =>
        match decode ts (raw.drop 32) with
        | .error e => .error e
        | .ok vs => .ok (v :: vs)

/-! ## Multicall aggregator

Modelled from the spec: the Multicall Aggregator (spec section 4.2) is
implemented by alloy's multicall builder; src/main.rs only constructs and
dispatches it (lines 159-185). -/

/-- Modelled from the spec: aggregator-level errors — the protocol errors
`LengthMismatch` and `CallFailed{index}`, plus decode failures wrapped with the
failing call's index and name. -/
inductive AggError
  | encoding
  | decodeFailed (index : Nat) (name : String)
  | lengthMismatch
  | callFailed (index : Nat)
deriving DecidableEq, Repr

/-- Modelled from the spec: a call descriptor — target address, signature and
concrete arguments. -/
structure CallDescriptor where
  target : Nat
  signature : FunctionSignature
  arguments : List AbiValue
deriving DecidableEq, Repr

/-- Every call's arguments positionally match its declared parameter types. -/
def wellTyped (calls : List CallDescriptor) : Bool :=
  calls.all (fun c => c.arguments.map argTypeOf == c.signature.parameterTypes)

/-- Modelled from the spec: `build_request` is a pure mapping — for each call
in order, encode it and pair the payload with the call's target. -/
def buildRequest : List CallDescriptor → Except AggError (List (Nat × List Nat))
  | [] => .ok []
  | c :: cs =>
    match encode c.signature c.arguments with
    | .error _ => .error .encoding
    | .ok payload =>
      match buildRequest cs with
      | .error e => .error e
      | .ok rest => .ok ((c.target, payload) :: rest)

/-- The request `build_request` produces on well-typed calls, as a total map. -/
def requestOf (calls : List CallDescriptor) : List (Nat × List Nat) :=
  calls.map (fun c => (c.target, encodeCalldata c.signature c.arguments))

/-- Zero-based index of the first entry whose success flag is false. -/
def firstFailIdx : List (Bool × List Nat) → Option Nat
  | [] => none
  | e :: es => if e.1 = false then some 0 else (firstFailIdx es).map (· + 1)

/-- Modelled from the spec: the helper contract returns `(success, returnData)`
entries; per-call failure is not tolerated — if any entry failed the whole
dispatch fails with `CallFailed{index}` naming the first failing position. -/
def dispatchEntries (entries : List (Bool × List Nat)) :
    Except AggError (List (List Nat)) :=
  match firstFailIdx entries with
  | some i => .error (.callFailed i)
  | none => .ok (entries.map Prod.snd)

/-- Modelled from the spec: `dispatch` delegates the aggregated request to the
transport and checks every per-call success flag. -/
def dispatch (req : List (Nat × List Nat))
    (transport : List (Nat × List Nat) → List (Bool × List Nat)) :
    Except AggError (List (List Nat)) :=
  dispatchEntries (transport req)

/-- Modelled from the spec: zip each call's return types with its response
entry and delegate to the codec; a decode failure is wrapped with the failing
call's index and name. -/
def decodeEntries : Nat → List CallDescriptor → List (List Nat) →
    Except AggError (List (List AbiValue))
  | _, [], [] => .ok []
  | i, c :: cs, r :: rs =>
    match decode c.signature.returnTypes r with
    | .error _ => .error (.decodeFailed i c.signature.name)
    | .ok vs =>
      match decodeEntries (i + 1) cs rs with
      | .error e => .error e
      | .ok rest => .ok (vs :: rest)
  | _, _, _ => .error .lengthMismatch

/-- Modelled from the spec: `decode_results` fails with
`ProtocolError::LengthMismatch` when the response length differs from the call
list's length, and otherwise decodes every entry in order. -/
def decodeResults (calls : List CallDescriptor) (resp : List (List Nat)) :
    Except AggError (List (List AbiValue)) :=
  if resp.length ≠ calls.length then .error .lengthMismatch
  else decodeEntries 0 calls resp

/-- Modelled from the spec: the aggregated round trip —
`build_request`, `dispatch`, `decode_results`. -/
def aggregate (calls : List CallDescriptor)
    (transport : List (Nat × List Nat) → List (Bool × List Nat)) :
    Except AggError (List (List AbiValue)) :=
  match buildRequest calls with
  | .error e => .error e
  | .ok req =>
    match dispatch req transport with
    | .error e => .error e
    | .ok resp => decodeResults calls resp

/-- Whether an `Except` is a success. -/
def exceptIsOk {ε α : Type} : Except ε α → Bool
  | .ok _ => true
  | .error _ => false

/-- The success value of an `Except`, if any. -/
def exceptToOption {ε α : Type} : Except ε α → Option α
  | .ok a => some a
  | .error _ => none

/-- The decode a per-call responder `g` induces for one call: its own return
types against the bytes `g` answers for its own encoded `(target, payload)`
pair. -/
def decodeOfCall (g : Nat × List Nat → List Nat) (c : CallDescriptor) :
    Except CodecError (List AbiValue) :=
  decode c.signature.returnTypes (g (c.target, encodeCalldata c.signature c.arguments))

/-! ## The CustomOracle interface and the calls main issues

Translated from src/main.rs: the sol! block (lines 68-83) and the multicall
construction in main (lines 147-168). -/

/-- State mutability of a declared contract function, as written in the
Solidity interface. -/
inductive SolMutability
  | view
  | nonpayable
deriving DecidableEq, Repr

/-- One function declaration of the sol! interface block. -/
structure SolFunction where
  name : String
  params : List AbiType
  ret : AbiType
  mutability : SolMutability
deriving DecidableEq, Repr

/-- The CustomOracle interface exactly as declared in src/main.rs lines 74-81,
in declaration order: every function is `external view`. -/
def customOracleInterface : List SolFunction :=
  [⟨"BASE_FEED_1", [], .address, .view⟩,
   ⟨"BASE_FEED_2", [], .address, .view⟩,
   ⟨"QUOTE_FEED_1", [], .address, .view⟩,
   ⟨"QUOTE_FEED_2", [], .address, .view⟩,
   ⟨"SCALE_FACTOR", [], .uint256, .view⟩,
   ⟨"VAULT", [], .address, .view⟩,
   ⟨"VAULT_CONVERSION_SAMPLE", [], .uint256, .view⟩,
   ⟨"price", [], .uint256, .view⟩]

/-- The order in which main adds calls to the multicall builder
(src/main.rs lines 159-168). -/
def mainCallOrder : List String :=
  ["price", "BASE_FEED_1", "BASE_FEED_2", "QUOTE_FEED_1", "QUOTE_FEED_2",
   "SCALE_FACTOR", "VAULT", "VAULT_CONVERSION_SAMPLE"]

/-- The oracle contract address from src/main.rs line 135. -/
def customOracleAddress : Nat := 0x6CAFE228eC0B0bC2D076577d56D35Fe704318f6d

/-- The signature a declared interface function denotes. -/
def sigOfFn (f : SolFunction) : FunctionSignature :=
  ⟨f.name, f.params, [f.ret]⟩

/-- The call descriptor main builds for one named oracle function. -/
def callOfName (n : String) : CallDescriptor :=
  match customOracleInterface.find? (fun f => f.name == n) with
  | some f => ⟨customOracleAddress, sigOfFn f, []⟩
  | none => ⟨customOracleAddress, ⟨n, [], []⟩, []⟩

/-- The eight call descriptors main submits, in submission order. -/
def oracleCalls : List CallDescriptor := mainCallOrder.map callOfName

/-! ## The tracer initialization and main's control flow

Translated from src/main.rs lines 23-31 and 86-199 (the same normalization also
appears in src/telemetry.rs lines 14-19). -/

/-- The literal path suffix appended to the SigNoz endpoint. -/
def tracesSuffix : List Char := ("/v1/traces").toList

/-- Rust's trim_end_matches: remove every trailing occurrence of the
character. -/
def trimEndSlashes (s : List Char) : List Char :=
  (s.reverse.dropWhile (fun c => c == '/')).reverse

/-- The endpoint normalization of init_tracer (src/main.rs lines 27-31): keep
an endpoint that already ends with the traces path, otherwise strip trailing
slashes and append it. -/
def normalizeEndpoint (s : List Char) : List Char :=
  if tracesSuffix.isSuffixOf s then s else trimEndSlashes s ++ tracesSuffix

/-- The environment variable init_tracer reads (src/main.rs line 24). -/
def signozEndpointKey : List Char := ("SIGNOZ_ENDPOINT").toList

/-- The message of the expect panic on a missing endpoint. -/
def panicMessage : List Char := ("SIGNOZ_ENDPOINT not set").toList

/-- The tracer initialization (src/main.rs lines 23-31): read SIGNOZ_ENDPOINT
from the environment, panic if unset, otherwise normalize it. -/
def initTracerModel (env : List Char → Option (List Char)) :
    Except (List Char) (List Char) :=
  match env signozEndpointKey with
  | none => .error panicMessage
  | some s => .ok (normalizeEndpoint s)

/-- The observable steps of main, in program order. -/
inductive MainEvent
  | subscriberInit
  | dotenvLoad
  | tracerSpan
  | wsConnect (url : List Char)
  | multicallDispatch
deriving DecidableEq, Repr

/-- How an execution of main ends. -/
inductive MainOutcome
  | panicked (msg : List Char)
  | completed
deriving DecidableEq, Repr

/-- The WebSocket RPC url of src/main.rs line 113. -/
def rpcUrl : List Char := ("wss://ethereum-rpc.publicnode.com").toList

/-- Main's control flow (src/main.rs lines 86-199) over a given process
environment (as it stands after dotenv): subscriber init and dotenv, then
init_tracer — whose expect panics when SIGNOZ_ENDPOINT is unset, aborting
before the WebSocket connection and before the multicall dispatch — then the
tracer span, the WebSocket connection and the aggregated contract call. -/
def runMain (env : List Char → Option (List Char)) :
    List MainEvent × MainOutcome :=
  match initTracerModel env with
  | .error msg => ([.subscriberInit, .dotenvLoad], .panicked msg)
  | .ok _ =>
    ([.subscriberInit, .dotenvLoad, .tracerSpan, .wsConnect rpcUrl,
      .multicallDispatch], .completed)

/-! ## Helper lemmas -/

theorem natToBytesBE_length (n : Nat) : ∀ v, (natToBytesBE n v).length = n := by
  induction n with
  | zero => intro v; rfl
  | succ n ih => intro v; simp [natToBytesBE, ih]

theorem bytesToNatBE_append (l : List Nat) (b : Nat) :
    bytesToNatBE (l ++ [b]) = bytesToNatBE l * 256 + b := by
  simp [bytesToNatBE, List.foldl_append]

theorem bytesToNatBE_natToBytesBE (n : Nat) :
    ∀ v, v < 256 ^ n → bytesToNatBE (natToBytesBE n v) = v := by
  induction n with
  | zero =>
    intro v hv
    have : v = 0 := by simpa using hv
    simp [this, natToBytesBE, bytesToNatBE]
  | succ n ih =>
    intro v hv
    have hdiv : v / 256 < 256 ^ n := by
      rw [Nat.div_lt_iff_lt_mul (by norm_num : 0 < 256)]
      calc v < 256 ^ (n + 1) := hv
        _ = 256 ^ n * 256 := by rw [pow_succ]
    rw [natToBytesBE, bytesToNatBE_append, ih (v / 256) hdiv]
    omega

theorem decode_single_uint (w : List Nat) (hlen : w.length = 32) :
    decode [AbiType.uint256] w = .ok [AbiValue.vUint256 (bytesToNatBE w)] := by
  rw [decode, if_neg (by omega)]
  rw [List.take_of_length_le (by omega), List.drop_eq_nil_of_le (by omega)]
  rw [decodeWord, if_neg (by omega)]
  rw [decode]
  rfl

theorem decode_single_address (w : List Nat) (hlen : w.length = 32)
    (hzero : (w.take 12).all (fun b => b == 0) = true) :
    decode [AbiType.address] w = .ok [AbiValue.vAddress (w.drop 12)] := by
  rw [decode, if_neg (by omega)]
  rw [List.take_of_length_le (by omega), List.drop_eq_nil_of_le (by omega)]
  rw [decodeWord, if_neg (by omega)]
  simp only [hzero, if_true]
  rw [decode]
  rfl

theorem decode_uint256_word (v : Nat) (hv : v < 2 ^ 256) :
    decode [AbiType.uint256] (natToBytesBE 32 v) = .ok [AbiValue.vUint256 v] := by
  have hlen : (natToBytesBE 32 v).length = 32 := natToBytesBE_length 32 v
  have hv' : v < 256 ^ 32 := by
    have h2 : (256 : Nat) ^ 32 = 2 ^ 256 := by norm_num
    omega
  rw [decode_single_uint _ hlen, bytesToNatBE_natToBytesBE 32 v hv']

theorem replicate_take_12 (bs : List Nat) :
    (List.replicate 12 (0 : Nat) ++ bs).take 12 = List.replicate 12 0 := by
  rw [show (12 : Nat) = (List.replicate 12 (0 : Nat)).length from by simp]
  exact List.take_left _ _

theorem replicate_drop_12 (bs : List Nat) :
    (List.replicate 12 (0 : Nat) ++ bs).drop 12 = bs := by
  rw [show (12 : Nat) = (List.replicate 12 (0 : Nat)).length from by simp]
  exact List.drop_left _ _

theorem decode_address_word (bs : List Nat) (hbs : bs.length = 20) :
    decode [AbiType.address] (List.replicate 12 0 ++ bs) = .ok [AbiValue.vAddress bs] := by
  have hlen : (List.replicate 12 (0 : Nat) ++ bs).length = 32 := by simp [hbs]
  have hzero : ((List.replicate 12 (0 : Nat) ++ bs).take 12).all (fun b => b == 0) = true := by
    rw [replicate_take_12]
    simp [List.all_eq_true, List.mem_replicate]
  rw [decode_single_address _ hlen hzero, replicate_drop_12]

theorem buildRequest_wellTyped :
    ∀ calls : List CallDescriptor, wellTyped calls = true →
      buildRequest calls = .ok (requestOf calls) := by
  intro calls
  induction calls with
  | nil => intro _; rfl
  | cons c cs ih =>
    intro h
    rw [wellTyped, List.all_cons, Bool.and_eq_true] at h
    have hc : c.arguments.map argTypeOf = c.signature.parameterTypes := by
      have := h.1
      simpa using this
    have htail := ih h.2
    rw [buildRequest, encode, if_pos hc, htail]
    rfl

theorem firstFailIdx_map_true {α : Type} (g : α → List Nat) :
    ∀ l : List α, firstFailIdx (l.map (fun x => (true, g x))) = none := by
  intro l
  induction l with
  | nil => rfl
  | cons x xs ih => simp [firstFailIdx, ih]

theorem firstFailIdx_spec :
    ∀ (l : List (Bool × List Nat)) (i : Nat), firstFailIdx l = some i →
      l[i]?.map Prod.fst = some false ∧
      ∀ j, j < i → l[j]?.map Prod.fst = some true := by
  intro l
  induction l with
  | nil => intro i h; simp [firstFailIdx] at h
  | cons e es ih =>
    intro i h
    rw [firstFailIdx] at h
    by_cases he : e.1 = false
    · rw [if_pos he] at h
      have hi : i = 0 := by simpa using h.symm
      subst hi
      refine ⟨by simp [he], ?_⟩
      intro j hj
      omega
    · rw [if_neg he] at h
      rcases Option.map_eq_some'.mp h with ⟨i', hi', hii⟩
      subst hii
      have hspec := ih i' hi'
      refine ⟨by simpa using hspec.1, ?_⟩
      intro j hj
      match j with
      | 0 =>
        have : e.1 = true := by
          cases he' : e.1
          · exact absurd he' he
          · rfl
        simp [this]
      | j' + 1 =>
        have : j' < i' := by omega
        simpa using hspec.2 j' this

theorem exists_false_firstFailIdx :
    ∀ l : List (Bool × List Nat), (∃ e ∈ l, e.1 = false) →
      ∃ i, firstFailIdx l = some i := by
  intro l
  induction l with
  | nil => intro h; simp at h
  | cons e es ih =>
    intro h
    by_cases he : e.1 = false
    · exact ⟨0, by rw [firstFailIdx, if_pos he]⟩
    · have : ∃ e ∈ es, e.1 = false := by
        rcases h with ⟨e', he', hfalse⟩
        rcases List.mem_cons.mp he' with rfl | hmem
        · exact absurd hfalse he
        · exact ⟨e', hmem, hfalse⟩
      rcases ih this with ⟨i, hi⟩
      exact ⟨i + 1, by rw [firstFailIdx, if_neg he, hi]; rfl⟩

theorem decodeEntries_map_ok (f : CallDescriptor → List Nat) :
    ∀ (calls : List CallDescriptor) (k : Nat),
      (∀ c ∈ calls, exceptIsOk (decode c.signature.returnTypes (f c)) = true) →
      ∃ results, decodeEntries k calls (calls.map f) = .ok results ∧
        results.length = calls.length ∧
        ∀ (i : Nat) (c : CallDescriptor), calls[i]? = some c →
          results[i]? = exceptToOption (decode c.signature.returnTypes (f c)) := by
  intro calls
  induction calls with
  | nil =>
    intro k _
    exact ⟨[], rfl, rfl, by intro i c hc; simp at hc⟩
  | cons c cs ih =>
    intro k hok
    have hc := hok c (List.mem_cons_self c cs)
    have hvs : ∃ vs, decode c.signature.returnTypes (f c) = .ok vs := by
      cases hd : decode c.signature.returnTypes (f c)
      · rw [hd] at hc
        simp [exceptIsOk] at hc
      · exact ⟨_, rfl⟩
    rcases hvs with ⟨vs, hvs⟩
    have htail : ∀ c' ∈ cs, exceptIsOk (decode c'.signature.returnTypes (f c')) = true :=
      fun c' hmem => hok c' (List.mem_cons_of_mem c hmem)
    rcases ih (k + 1) htail with ⟨rest, hrest, hlen, hidx⟩
    refine ⟨vs :: rest, ?_, by simp [hlen], ?_⟩
    · rw [List.map_cons, decodeEntries, hvs, hrest]
    · intro i d hd
      match i with
      | 0 =>
        simp only [List.getElem?_cons_zero, Option.some.injEq] at hd
        subst hd
        simp [hvs, exceptToOption]
      | i' + 1 =>
        simp only [List.getElem?_cons_succ] at hd ⊢
        exact hidx i' d hd

theorem decodeResults_eq_of_length (calls : List CallDescriptor)
    (resp : List (List Nat)) (h : resp.length = calls.length) :
    decodeResults calls resp = decodeEntries 0 calls resp := by
  rw [decodeResults, if_neg (by omega)]

theorem firstFailIdx_nil : firstFailIdx [] = none := rfl

theorem firstFailIdx_cons_true (w : List Nat) (es : List (Bool × List Nat)) :
    firstFailIdx ((true, w) :: es) = (firstFailIdx es).map (· + 1) := by
  rw [firstFailIdx]
  simp

theorem oracleCalls_eq :
    oracleCalls =
      [⟨customOracleAddress, ⟨"price", [], [AbiType.uint256]⟩, []⟩,
       ⟨customOracleAddress, ⟨"BASE_FEED_1", [], [AbiType.address]⟩, []⟩,
       ⟨customOracleAddress, ⟨"BASE_FEED_2", [], [AbiType.address]⟩, []⟩,
       ⟨customOracleAddress, ⟨"QUOTE_FEED_1", [], [AbiType.address]⟩, []⟩,
       ⟨customOracleAddress, ⟨"QUOTE_FEED_2", [], [AbiType.address]⟩, []⟩,
       ⟨customOracleAddress, ⟨"SCALE_FACTOR", [], [AbiType.uint256]⟩, []⟩,
       ⟨customOracleAddress, ⟨"VAULT", [], [AbiType.address]⟩, []⟩,
       ⟨customOracleAddress, ⟨"VAULT_CONVERSION_SAMPLE", [], [AbiType.uint256]⟩, []⟩] := by
  decide

/-! ## Claim theorems -/

/-- C1: for every ordered call list and every transport that answers each
submitted `(target, payload)` pair individually (so the response list is the
entrywise image of the request list), the aggregated round trip succeeds with
one result per call, and the result at every position is exactly the decode of
that same position's call — the results are positionally aligned to the input
submission order, never re-sorted, deduplicated or otherwise reordered.  Since
this holds for every call list, it holds for every permutation of a fixed call
set, each aligned to its own submission order. -/
theorem aggregate_preserves_order (calls : List CallDescriptor)
    (g : Nat × List Nat → List Nat)
    (hw : wellTyped calls = true)
    (hok : calls.all (fun c => exceptIsOk (decodeOfCall g c)) = true) :
    ∃ results,
      aggregate calls (fun req => req.map (fun pr => (true, g pr))) = .ok results ∧
      results.length = calls.length ∧
      ∀ (i : Nat) (c : CallDescriptor), calls[i]? = some c →
        results[i]? = exceptToOption (decodeOfCall g c) := by
  have hok' : ∀ c ∈ calls,
      exceptIsOk (decode c.signature.returnTypes
        (g (c.target, encodeCalldata c.signature c.arguments))) = true := by
    intro c hc
    exact List.all_eq_true.mp hok c hc
  rcases decodeEntries_map_ok
      (fun c => g (c.target, encodeCalldata c.signature c.arguments)) calls 0 hok'
    with ⟨results, hres, hlen, hidx⟩
  refine ⟨results, ?_, hlen, fun i c hc => hidx i c hc⟩
  have hff := firstFailIdx_map_true g (requestOf calls)
  simp only [aggregate, buildRequest_wellTyped calls hw, dispatch, dispatchEntries, hff]
  rw [decodeResults_eq_of_length _ _ (by simp [requestOf])]
  rw [requestOf, List.map_map, List.map_map]
  exact hres

/-- Witness for C1: the eight oracle calls against a transport answering every
call with a 32-byte zero word. -/
theorem aggregate_preserves_order_witness :
    ∃ results,
      aggregate oracleCalls
        (fun req => req.map (fun _ => (true, List.replicate 32 0))) = .ok results ∧
      results.length = oracleCalls.length ∧
      ∀ (i : Nat) (c : CallDescriptor), oracleCalls[i]? = some c →
        results[i]? = exceptToOption (decodeOfCall (fun _ => List.replicate 32 0) c) :=
  aggregate_preserves_order oracleCalls (fun _ => List.replicate 32 0)
    (by decide) (by decide)

/-- C2: when the eight oracle calls are aggregated in main's submission order
(price, the four feed getters, SCALE_FACTOR, VAULT, VAULT_CONVERSION_SAMPLE)
and the transport returns eight well-formed 32-byte word entries, decoding
yields the price as a UnsignedInt256 first, the four feed addresses as Address
values in the middle, SCALE_FACTOR and VAULT_CONVERSION_SAMPLE as
UnsignedInt256 sixth and eighth, each equal to the literal bytes supplied in
the response. -/
theorem oracle_schema_decode
    (p sf vcs : Nat) (a1 a2 a3 a4 av : List Nat)
    (hp : p < 2 ^ 256) (hsf : sf < 2 ^ 256) (hvcs : vcs < 2 ^ 256)
    (h1 : a1.length = 20) (h2 : a2.length = 20) (h3 : a3.length = 20)
    (h4 : a4.length = 20) (hv : av.length = 20) :
    aggregate oracleCalls (fun _ =>
      [(true, natToBytesBE 32 p),
       (true, List.replicate 12 0 ++ a1),
       (true, List.replicate 12 0 ++ a2),
       (true, List.replicate 12 0 ++ a3),
       (true, List.replicate 12 0 ++ a4),
       (true, natToBytesBE 32 sf),
       (true, List.replicate 12 0 ++ av),
       (true, natToBytesBE 32 vcs)]) =
    .ok [[AbiValue.vUint256 p], [AbiValue.vAddress a1], [AbiValue.vAddress a2],
         [AbiValue.vAddress a3], [AbiValue.vAddress a4], [AbiValue.vUint256 sf],
         [AbiValue.vAddress av], [AbiValue.vUint256 vcs]] := by
  have hw : wellTyped oracleCalls = true := by decide
  simp only [aggregate, buildRequest_wellTyped oracleCalls hw, dispatch, dispatchEntries,
    firstFailIdx_cons_true, firstFailIdx_nil, Option.map_none', Option.map_some',
    List.map_cons, List.map_nil]
  have hlen : ([natToBytesBE 32 p, List.replicate 12 0 ++ a1, List.replicate 12 0 ++ a2,
      List.replicate 12 0 ++ a3, List.replicate 12 0 ++ a4, natToBytesBE 32 sf,
      List.replicate 12 0 ++ av, natToBytesBE 32 vcs] : List (List Nat)).length =
      oracleCalls.length := by
    rw [oracleCalls_eq]
    simp
  rw [decodeResults_eq_of_length _ _ hlen]
  rw [oracleCalls_eq]
  simp only [decodeEntries, decode_uint256_word p hp, decode_uint256_word sf hsf,
    decode_uint256_word vcs hvcs, decode_address_word a1 h1, decode_address_word a2 h2,
    decode_address_word a3 h3, decode_address_word a4 h4, decode_address_word av hv]

/-- Witness for C2 at concrete literal response bytes. -/
theorem oracle_schema_decode_witness :
    aggregate oracleCalls (fun _ =>
      [(true, natToBytesBE 32 42),
       (true, List.replicate 12 0 ++ List.replicate 20 1),
       (true, List.replicate 12 0 ++ List.replicate 20 2),
       (true, List.replicate 12 0 ++ List.replicate 20 3),
       (true, List.replicate 12 0 ++ List.replicate 20 4),
       (true, natToBytesBE 32 1000000),
       (true, List.replicate 12 0 ++ List.replicate 20 5),
       (true, natToBytesBE 32 3)]) =
    .ok [[AbiValue.vUint256 42], [AbiValue.vAddress (List.replicate 20 1)],
         [AbiValue.vAddress (List.replicate 20 2)], [AbiValue.vAddress (List.replicate 20 3)],
         [AbiValue.vAddress (List.replicate 20 4)], [AbiValue.vUint256 1000000],
         [AbiValue.vAddress (List.replicate 20 5)], [AbiValue.vUint256 3]] :=
  oracle_schema_decode 42 1000000 3 (List.replicate 20 1) (List.replicate 20 2)
    (List.replicate 20 3) (List.replicate 20 4) (List.replicate 20 5)
    (by decide) (by decide) (by decide) (by decide) (by decide) (by decide)
    (by decide) (by decide)

/-- C7: per-call failure is all-or-nothing — whenever at least one entry of the
aggregated response carries a false success flag, the dispatch (and with it the
whole aggregation, so decode_results is never invoked and no partial mix of
results is delivered) fails with `ProtocolError::CallFailed{index}` naming the
zero-based position of the first failing call. -/
theorem aggregate_call_failed (calls : List CallDescriptor)
    (transport : List (Nat × List Nat) → List (Bool × List Nat))
    (hw : wellTyped calls = true)
    (hfail : ∃ e ∈ transport (requestOf calls), e.1 = false) :
    ∃ i,
      aggregate calls transport = .error (.callFailed i) ∧
      dispatch (requestOf calls) transport = .error (.callFailed i) ∧
      (transport (requestOf calls))[i]?.map Prod.fst = some false ∧
      ∀ j, j < i → (transport (requestOf calls))[j]?.map Prod.fst = some true := by
  rcases exists_false_firstFailIdx _ hfail with ⟨i, hi⟩
  have hspec := firstFailIdx_spec _ i hi
  have hdisp : dispatch (requestOf calls) transport = .error (.callFailed i) := by
    rw [dispatch, dispatchEntries, hi]
  refine ⟨i, ?_, hdisp, hspec.1, hspec.2⟩
  simp only [aggregate, buildRequest_wellTyped calls hw, hdisp]

/-- Witness for C7: the eight oracle calls with the transport's second entry
failing, yielding index 1. -/
theorem aggregate_call_failed_witness :
    ∃ i,
      aggregate oracleCalls (fun _ =>
        [(true, ([] : List Nat)), (false, []), (true, []), (true, []),
         (true, []), (true, []), (true, []), (true, [])]) = .error (.callFailed i) ∧
      dispatch (requestOf oracleCalls) (fun _ =>
        [(true, ([] : List Nat)), (false, []), (true, []), (true, []),
         (true, []), (true, []), (true, []), (true, [])]) = .error (.callFailed i) ∧
      ([(true, ([] : List Nat)), (false, []), (true, []), (true, []),
        (true, []), (true, []), (true, []), (true, [])])[i]?.map Prod.fst = some false ∧
      ∀ j, j < i →
        ([(true, ([] : List Nat)), (false, []), (true, []), (true, []),
          (true, []), (true, []), (true, []), (true, [])])[j]?.map Prod.fst = some true :=
  aggregate_call_failed oracleCalls
    (fun _ => [(true, ([] : List Nat)), (false, []), (true, []), (true, []),
               (true, []), (true, []), (true, []), (true, [])])
    (by decide) (by decide)

/-- C3: for every function signature with zero parameters, `encode` returns
exactly the 4-byte selector — the first 4 bytes of the standard (Keccak-256)
hash of the canonical signature string — followed by nothing, and repeated
invocations of `encode` on the same signature are byte-identical. -/
theorem encode_zero_params_selector (sig : FunctionSignature)
    (h : sig.parameterTypes = []) :
    encode sig [] = .ok ((keccak256 (strBytes (canonicalSignature sig))).take 4) ∧
    ((keccak256 (strBytes (canonicalSignature sig))).take 4).length = 4 ∧
    ∀ b₁ b₂ : Except CodecError (List Nat),
      encode sig [] = b₁ → encode sig [] = b₂ → b₁ = b₂ := by
  refine ⟨?_, ?_, ?_⟩
  · rw [encode, if_pos (by simp [h])]
    simp [encodeCalldata, selector]
  · have hk : (keccak256 (strBytes (canonicalSignature sig))).length = 32 := by
      simp [keccak256]
    rw [List.length_take, hk]
    rfl
  · intro b₁ b₂ h1 h2
    rw [← h1, ← h2]

/-- Witness for C3 at the price() signature declared in the oracle interface. -/
theorem encode_zero_params_selector_witness :
    encode ⟨"price", [], [AbiType.uint256]⟩ [] =
      .ok ((keccak256 (strBytes
        (canonicalSignature ⟨"price", [], [AbiType.uint256]⟩))).take 4) ∧
    ((keccak256 (strBytes
      (canonicalSignature ⟨"price", [], [AbiType.uint256]⟩))).take 4).length = 4 ∧
    ∀ b₁ b₂ : Except CodecError (List Nat),
      encode ⟨"price", [], [AbiType.uint256]⟩ [] = b₁ →
      encode ⟨"price", [], [AbiType.uint256]⟩ [] = b₂ → b₁ = b₂ :=
  encode_zero_params_selector ⟨"price", [], [AbiType.uint256]⟩ rfl

/-- C4: for every supported type and valid in-range value, decoding the
encoding of the value yields the value again. -/
theorem decode_encode_roundtrip (v : AbiValue) (hv : validAbiValue v = true) :
    decode [argTypeOf v] (encodeValue v) = .ok [v] := by
  cases v with
  | vAddress bs =>
    have hlen : bs.length = 20 := by
      simp [validAbiValue] at hv
      exact hv.1
    simpa [argTypeOf, encodeValue] using decode_address_word bs hlen
  | vUint256 n =>
    have hn : n < 2 ^ 256 := by simpa [validAbiValue] using hv
    simpa [argTypeOf, encodeValue] using decode_uint256_word n hn

/-- Witness for C4 at a concrete uint256 value. -/
theorem decode_encode_roundtrip_witness :
    decode [argTypeOf (AbiValue.vUint256 7)] (encodeValue (AbiValue.vUint256 7)) =
      .ok [AbiValue.vUint256 7] :=
  decode_encode_roundtrip (AbiValue.vUint256 7) (by decide)

/-- C5: for every call list and every aggregated response whose entry count
differs from the call list's length, `decode_results` fails with
`ProtocolError::LengthMismatch`; the mismatch is never tolerated by truncation
or padding. -/
theorem decodeResults_length_mismatch (calls : List CallDescriptor)
    (resp : List (List Nat)) (h : resp.length ≠ calls.length) :
    decodeResults calls resp = .error .lengthMismatch := by
  rw [decodeResults, if_pos h]

/-- Witness for C5: the eight oracle calls against a seven-entry response. -/
theorem decodeResults_length_mismatch_witness :
    decodeResults oracleCalls (List.replicate 7 ([] : List Nat)) =
      .error .lengthMismatch :=
  decodeResults_length_mismatch oracleCalls (List.replicate 7 ([] : List Nat))
    (by decide)

/-- C6: decoding a 32-byte word at type Address fails with `DecodingError`
whenever any of the leading 12 bytes is non-zero; the high region is never
silently truncated. -/
theorem decode_address_nonzero_high (w : List Nat) (hlen : w.length = 32)
    (hnz : (w.take 12).any (fun b => b ≠ 0) = true) :
    decode [AbiType.address] w = .error .decodingError := by
  rw [decode, if_neg (by omega)]
  rw [List.take_of_length_le (by omega)]
  rw [decodeWord, if_neg (by omega)]
  have hall : (w.take 12).all (fun b => b == 0) = false := by
    rw [← Bool.not_eq_true]
    intro hall
    rw [List.all_eq_true] at hall
    rw [List.any_eq_true] at hnz
    rcases hnz with ⟨b, hb, hbne⟩
    have hb0 := hall b hb
    simp at hb0 hbne
    exact hbne hb0
  simp [hall]

/-- Witness for C6: a word whose first byte is 1. -/
theorem decode_address_nonzero_high_witness :
    decode [AbiType.address] (1 :: List.replicate 31 0) = .error .decodingError :=
  decode_address_nonzero_high (1 :: List.replicate 31 0) (by decide) (by decide)

/-- C8: the program never issues a state-mutating contract call — every call
main submits to the multicall builder resolves in the declared CustomOracle
interface to a function declared `view` (read-only). -/
theorem main_calls_all_view :
    mainCallOrder.all (fun n =>
      match customOracleInterface.find? (fun f => f.name == n) with
      | some f => f.mutability == SolMutability.view
      | none => false) = true := by
  decide

/-- C9: when SIGNOZ_ENDPOINT is unset in the process environment, every
execution of the program panics during tracer initialization with the expect
message, before any WebSocket connection is attempted and before any contract
call is issued. -/
theorem main_panics_without_endpoint (env : List Char → Option (List Char))
    (h : env signozEndpointKey = none) :
    runMain env = ([MainEvent.subscriberInit, MainEvent.dotenvLoad],
      MainOutcome.panicked panicMessage) ∧
    (∀ url, MainEvent.wsConnect url ∉ (runMain env).1) ∧
    MainEvent.multicallDispatch ∉ (runMain env).1 := by
  have hrun : runMain env = ([MainEvent.subscriberInit, MainEvent.dotenvLoad],
      MainOutcome.panicked panicMessage) := by
    rw [runMain, initTracerModel, h]
  refine ⟨hrun, ?_, ?_⟩
  · intro url
    rw [hrun]
    simp
  · rw [hrun]
    simp

/-- Witness for C9: the empty environment. -/
theorem main_panics_without_endpoint_witness :
    runMain (fun _ => none) = ([MainEvent.subscriberInit, MainEvent.dotenvLoad],
      MainOutcome.panicked panicMessage) ∧
    (∀ url, MainEvent.wsConnect url ∉ (runMain (fun _ => none)).1) ∧
    MainEvent.multicallDispatch ∉ (runMain (fun _ => none)).1 :=
  main_panics_without_endpoint (fun _ => none) rfl

/-- C10: the telemetry endpoint normalization is total and idempotent — every
output ends with "/v1/traces"; an input already ending with it is returned
unchanged; otherwise trailing slashes are stripped and the path appended; and
normalizing an already-normalized endpoint changes nothing. -/
theorem normalizeEndpoint_spec (s : List Char) :
    tracesSuffix.isSuffixOf (normalizeEndpoint s) = true ∧
    (tracesSuffix.isSuffixOf s = true → normalizeEndpoint s = s) ∧
    (tracesSuffix.isSuffixOf s = false →
      normalizeEndpoint s = trimEndSlashes s ++ tracesSuffix) ∧
    normalizeEndpoint (normalizeEndpoint s) = normalizeEndpoint s := by
  have h2 : ∀ t : List Char, tracesSuffix.isSuffixOf t = true →
      normalizeEndpoint t = t := by
    intro t ht
    rw [normalizeEndpoint, if_pos ht]
  have h1 : tracesSuffix.isSuffixOf (normalizeEndpoint s) = true := by
    by_cases h : tracesSuffix.isSuffixOf s = true
    · rw [h2 s h]
      exact h
    · rw [normalizeEndpoint, if_neg h]
      exact List.isSuffixOf_iff_suffix.mpr (List.suffix_append _ _)
  refine ⟨h1, h2 s, ?_, h2 _ h1⟩
  intro h
  rw [normalizeEndpoint, if_neg (by rw [h]; exact Bool.false_ne_true)]

/-- Witness for C10 at a concrete endpoint with a trailing slash. -/
theorem normalizeEndpoint_spec_witness :
    tracesSuffix.isSuffixOf
      (normalizeEndpoint (("http://signoz.local/").toList)) = true ∧
    normalizeEndpoint (("http://signoz.local/").toList) =
      trimEndSlashes (("http://signoz.local/").toList) ++ tracesSuffix ∧
    normalizeEndpoint (normalizeEndpoint (("http://signoz.local/").toList)) =
      normalizeEndpoint (("http://signoz.local/").toList) :=
  ⟨(normalizeEndpoint_spec (("http://signoz.local/").toList)).1,
   (normalizeEndpoint_spec (("http://signoz.local/").toList)).2.2.1 (by decide),
   (normalizeEndpoint_spec (("http://signoz.local/").toList)).2.2.2⟩

end ChainlinkMulticall
